import Mathlib

/-!
A shallow embedding of the `berust` Befunge-93 interpreter (files
`src/playfield.rs` and `src/interpreter.rs`) and proofs about it.

Modelling conventions:
* Source text and grid cells are bytes / Unicode code points modelled as `Nat`.
  Rust's `str::chars()` iterates code points and `str::bytes()` iterates the
  UTF-8 encoding, so a source string is modelled as a `List Nat` of code
  points and `utf8Bytes` gives the UTF-8 encoding of one code point.
* Stack cells are `i64`; we model them as `Int`.  The wrapping arithmetic of
  release-profile Rust (`+`, `-`, `*` wrap modulo 2^64) is modelled with
  `wrap64`.  Division and remainder are checked in Rust in every profile:
  a zero divisor or `i64::MIN / -1` aborts; the model returns `Except.error`
  there.  `Int.tdiv`/`Int.tmod` are truncation towards zero, exactly Rust's
  `/` and `%` on integers.
* A Rust `panic!` (illegal instruction, out-of-bounds `Vec` index, division
  by zero) is modelled as `Except.error` with the corresponding message.
  `Vec` indexing is modelled with the checked flat index: `p`/`g` compute
  `x + width * y` in `usize` arithmetic, which in the release profile wraps
  modulo 2^64, so the model computes the flat index modulo 2^64 and aborts
  exactly when the wrapped index falls outside the buffer, as checked
  indexing does.
* `i64 as usize` is the two's complement reinterpretation, `v mod 2^64`.
* The ambient random generator used by the `?` instruction is modelled as a
  pre-drawn stream of directions stored in the interpreter state.
* The `BufReader` input is modelled as the list of remaining input bytes;
  the output sink as the list of bytes written so far.
-/

namespace Berust

/-- The four movement directions (`playfield.rs`, `enum Direction`). -/
inductive Direction
  | Up
  | Down
  | Left
  | Right
  deriving DecidableEq, Repr

/-- The current mode of the program (`interpreter.rs`, `enum Mode`). -/
inductive Mode
  | Execute
  | Parse
  | Terminate
  deriving DecidableEq, Repr

/-- A two-dimensional matrix of characters (`playfield.rs`, `struct Playfield`).
`field` is the flat byte buffer. -/
structure Playfield where
  field : List Nat
  width : Nat
  height : Nat
  deriving DecidableEq, Repr

/-- Number of bytes in the UTF-8 encoding of code point `c`. -/
def utf8Len (c : Nat) : Nat :=
  if c < 0x80 then 1 else if c < 0x800 then 2 else if c < 0x10000 then 3 else 4

/-- The UTF-8 encoding of the code point `c` (what `str::bytes()` yields for
the character `c`). -/
def utf8Bytes (c : Nat) : List Nat :=
  if c < 0x80 then [c]
  else if c < 0x800 then [0xC0 + c / 0x40, 0x80 + c % 0x40]
  else if c < 0x10000 then
    [0xE0 + c / 0x1000, 0x80 + (c / 0x40) % 0x40, 0x80 + c % 0x40]
  else
    [0xF0 + c / 0x40000, 0x80 + (c / 0x1000) % 0x40, 0x80 + (c / 0x40) % 0x40,
      0x80 + c % 0x40]

/-- UTF-8 encoding of a sequence of code points (`str::bytes()`). -/
def utf8Encode : List Nat → List Nat
  | [] => []
  | c :: cs => utf8Bytes c ++ utf8Encode cs

/-- Split a code-point sequence at every line feed (`0x0A`).  Always returns
at least one (possibly empty) piece. -/
def splitNl : List Nat → List (List Nat)
  | [] => [[]]
  | b :: rest =>
    if b = 10 then [] :: splitNl rest
    else
      match splitNl rest with
      | [] => [[b]]
      | l :: ls => (b :: l) :: ls

/-- Drop a single trailing carriage return (`0x0D`), as Rust's `str::lines`
does for `\r\n` line endings. -/
def stripCR (l : List Nat) : List Nat :=
  if l.getLast? = some 13 then l.dropLast else l

/-- Rust's `str::lines()`: split at line feeds, the final line ending being
optional, and strip one trailing carriage return from each line.
`"".lines()` is empty and `"\n".lines()` is `[""]`. -/
def rustLines (s : List Nat) : List (List Nat) :=
  let parts := splitNl s
  (if s.getLast? = some 10 ∨ s = [] then parts.dropLast else parts).map stripCR

/-- Length of the longest line (`lines.iter().map(..).max()` over a non-empty
list of lines equals this fold). -/
def maxLen (ls : List (List Nat)) : Nat :=
  ls.foldr (fun l m => max l.length m) 0

/-- `format!("{:1$}", l, width)`: right-pad a line with spaces (`0x20`) up to
`w` characters (Rust's format width counts characters, not bytes). -/
def padLine (w : Nat) (l : List Nat) : List Nat :=
  l ++ List.replicate (w - l.length) 32

/-- The loop `for l in lines { field.extend(format!("{:1$}", l, width).bytes()) }`. -/
def buildField (w : Nat) : List (List Nat) → List Nat
  | [] => []
  | l :: ls => utf8Encode (padLine w l) ++ buildField w ls

/-- `Playfield::new` (`playfield.rs` lines 18–34).  The input is split into
lines, `width` is the character count of the longest line, `height` the
number of lines, and each line is padded with spaces to `width` and then
byte-encoded into the flat buffer.  When the input has no lines at all,
`.max().unwrap()` panics — modelled as `none`. -/
def Playfield.new (input : List Nat) : Option Playfield :=
  match rustLines input with
  | [] => none
  | l :: ls =>
    let lines := l :: ls
    some { field := buildField (maxLen lines) lines
           width := maxLen lines
           height := lines.length }

/-- `impl ops::Index<(usize, usize)> for Playfield`: the checked `Vec` access
`field[x + width * y]`, with the index computed in wrapping (release-profile)
`usize` arithmetic, i.e. modulo 2^64; an index beyond the buffer panics
(`none`). -/
def Playfield.get (p : Playfield) (idx : Nat × Nat) : Option Nat :=
  p.field[(idx.1 + p.width * idx.2) % 2 ^ 64]?

/-- `impl ops::IndexMut<(usize, usize)> for Playfield`: checked write of the
cell `field[x + width * y]`, the index again computed modulo 2^64. -/
def Playfield.set (p : Playfield) (idx : Nat × Nat) (v : Nat) : Option Playfield :=
  if (idx.1 + p.width * idx.2) % 2 ^ 64 < p.field.length then
    some { p with field := p.field.set ((idx.1 + p.width * idx.2) % 2 ^ 64) v }
  else none

/-- A navigator through the playfield (`playfield.rs`,
`struct PlayfieldNavigator`).  The revision used by `interpreter.rs`
constructs it from the playfield's dimensions, so the model stores `width`
and `height` directly; the step arithmetic below is verbatim from
`PlayfieldNavigator::step`, with `self.field.width()`/`height()` read from
the stored dimensions. -/
structure PlayfieldNavigator where
  width : Nat
  height : Nat
  pos : Nat × Nat
  dir : Direction
  deriving DecidableEq, Repr

/-- `PlayfieldNavigator::step` (`playfield.rs` lines 106–137): move one step
in the facing direction, wrapping at the border of the field. -/
def PlayfieldNavigator.step (n : PlayfieldNavigator) : PlayfieldNavigator :=
  match n.dir with
  | .Up =>
    if 0 < n.pos.2 then { n with pos := (n.pos.1, n.pos.2 - 1) }
    else { n with pos := (n.pos.1, n.height - 1) }
  | .Down =>
    if n.pos.2 < n.height - 1 then { n with pos := (n.pos.1, n.pos.2 + 1) }
    else { n with pos := (n.pos.1, 0) }
  | .Left =>
    if 0 < n.pos.1 then { n with pos := (n.pos.1 - 1, n.pos.2) }
    else { n with pos := (n.width - 1, n.pos.2) }
  | .Right =>
    if n.pos.1 < n.width - 1 then { n with pos := (n.pos.1 + 1, n.pos.2) }
    else { n with pos := (0, n.pos.2) }

/-- `PlayfieldNavigator::turn`: set the facing direction. -/
def PlayfieldNavigator.turn (n : PlayfieldNavigator) (d : Direction) : PlayfieldNavigator :=
  { n with dir := d }

/-- A provider of input and output operations (`interpreter.rs`,
`struct InputOutput`): the remaining input bytes and the bytes written so
far. -/
structure InputOutput where
  reader : List Nat
  writer : List Nat
  deriving DecidableEq, Repr

/-- ASCII whitespace recognised by `str::trim` (the claims only exercise
ASCII input, so the Unicode whitespace set is restricted to its ASCII part). -/
def isWS (b : Nat) : Bool :=
  b == 32 || b == 9 || b == 10 || b == 11 || b == 12 || b == 13

/-- `str::trim`: remove leading and trailing whitespace. -/
def rustTrim (l : List Nat) : List Nat :=
  ((l.dropWhile isWS).reverse.dropWhile isWS).reverse

/-- `str::parse::<i64>`: an optional sign followed by one or more ASCII
digits, with the result required to fit in `i64`; anything else fails. -/
def parseI64 (bs : List Nat) : Option Int :=
  let sgn : Int := match bs with | 45 :: _ => -1 | _ => 1
  let ds := match bs with | 43 :: rest => rest | 45 :: rest => rest | _ => bs
  if ds = [] then none
  else if ds.all (fun b => 48 ≤ b && b ≤ 57) then
    let v : Int := sgn * (ds.foldl (fun acc b => acc * 10 + (b : Int) - 48) 0)
    if -(2 ^ 63) ≤ v ∧ v < 2 ^ 63 then some v else none
  else none

/-- `InputOutput::read_int` (`interpreter.rs` lines 51–59): read one line
(up to and including a line feed, or to end of input), trim whitespace,
parse as `i64`, and fall back to `0` on EOF or parse failure.  Returns the
value and the remaining input. -/
def read_int (input : List Nat) : Int × List Nat :=
  let line := input.takeWhile (fun b => b ≠ 10)
  let rest := (input.drop line.length).drop 1
  ((parseI64 (rustTrim line)).getD 0, rest)

/-- `InputOutput::read_ascii` (`interpreter.rs` lines 61–69): read exactly
one byte, or fall back to `-1` when the input is exhausted. -/
def read_ascii (input : List Nat) : Int × List Nat :=
  match input with
  | [] => (-1, [])
  | b :: rest => ((b : Int), rest)

/-- Decimal representation of an integer, as bytes. -/
def intDecBytes (v : Int) : List Nat :=
  (toString v).data.map Char.toNat

/-- `InputOutput::write_int`: `write!(writer, "{} ", val)`. -/
def write_int (io : InputOutput) (v : Int) : InputOutput :=
  { io with writer := io.writer ++ intDecBytes v ++ [32] }

/-- `InputOutput::write_ascii`: `write!(writer, "{}", val as u8 as char)` —
the low byte of `val`, re-encoded as UTF-8 by the formatter. -/
def write_ascii (io : InputOutput) (v : Int) : InputOutput :=
  { io with writer := io.writer ++ utf8Bytes (v % 256).toNat }

/-- A Befunge interpreter (`interpreter.rs`, `struct Interpreter`).  `rand`
is the pre-drawn stream of directions consumed by the `?` instruction. -/
structure Interpreter where
  field : Playfield
  io : InputOutput
  nav : PlayfieldNavigator
  stack : List Int
  mode : Mode
  rand : List Direction
  deriving DecidableEq, Repr

/-- `Interpreter::new`: navigator at `(0, 0)` facing right over the field's
dimensions, empty stack, `Execute` mode. -/
def Interpreter.new (f : Playfield) (io : InputOutput) (rand : List Direction) : Interpreter :=
  { field := f
    io := io
    nav := { width := f.width, height := f.height, pos := (0, 0), dir := .Right }
    stack := []
    mode := .Execute
    rand := rand }

/-- `Vec::push` on the stack (the top of the stack is the last element). -/
def push (v : Int) (s : List Int) : List Int := s ++ [v]

/-- `self.stack.pop().unwrap_or(0)`: the value of a pop, with the `0`
fallback for the empty stack. -/
def topD (s : List Int) : Int := s.getLast?.getD 0

/-- Two's complement wrap into the `i64` range (release-profile Rust
arithmetic). -/
def wrap64 (v : Int) : Int := (v + 2 ^ 63) % 2 ^ 64 - 2 ^ 63

/-- `i64 as usize`: two's complement reinterpretation. -/
def toUSize64 (v : Int) : Nat := (v % 2 ^ 64).toNat

/-- The smallest `i64`. -/
def intMin : Int := -(2 ^ 63)

/-- `Interpreter::execute_step` (`interpreter.rs` lines 124–297): dispatch
one instruction byte in `Execute` mode.  Returns the updated interpreter
(everything except the mode) and the next mode, or the panic message.
Rust's range pattern `b'0'...b'9'` is written as the ten byte literals. -/
def Interpreter.execute_step (s : Interpreter) (c : Nat) :
    Except String (Interpreter × Mode) :=
  match c with
  | 48 | 49 | 50 | 51 | 52 | 53 | 54 | 55 | 56 | 57 =>  -- b'0'...b'9'
    .ok ({ s with stack := push ((c - 48 : Nat) : Int) s.stack }, .Execute)
  | 43 =>  -- b'+'
    let a := topD s.stack
    let r1 := s.stack.dropLast
    let b := topD r1
    let r2 := r1.dropLast
    .ok ({ s with stack := push (wrap64 (a + b)) r2 }, .Execute)
  | 45 =>  -- b'-'
    let a := topD s.stack
    let r1 := s.stack.dropLast
    let b := topD r1
    let r2 := r1.dropLast
    .ok ({ s with stack := push (wrap64 (b - a)) r2 }, .Execute)
  | 42 =>  -- b'*'
    let a := topD s.stack
    let r1 := s.stack.dropLast
    let b := topD r1
    let r2 := r1.dropLast
    .ok ({ s with stack := push (wrap64 (a * b)) r2 }, .Execute)
  | 47 =>  -- b'/'
    let a := topD s.stack
    let r1 := s.stack.dropLast
    let b := topD r1
    let r2 := r1.dropLast
    if a = 0 then .error "attempt to divide by zero"
    else if b = intMin ∧ a = -1 then .error "attempt to divide with overflow"
    else .ok ({ s with stack := push (Int.tdiv b a) r2 }, .Execute)
  | 37 =>  -- b'%'
    let a := topD s.stack
    let r1 := s.stack.dropLast
    let b := topD r1
    let r2 := r1.dropLast
    if a = 0 then .error "attempt to calculate the remainder with a divisor of zero"
    else if b = intMin ∧ a = -1 then
      .error "attempt to calculate the remainder with overflow"
    else .ok ({ s with stack := push (Int.tmod b a) r2 }, .Execute)
  | 33 =>  -- b'!'
    let v := topD s.stack
    let r1 := s.stack.dropLast
    .ok ({ s with stack := push (if v = 0 then 1 else 0) r1 }, .Execute)
  | 96 =>  -- backquote
    let a := topD s.stack
    let r1 := s.stack.dropLast
    let b := topD r1
    let r2 := r1.dropLast
    .ok ({ s with stack := push (if b > a then 1 else 0) r2 }, .Execute)
  | 62 =>  -- b'>'
    .ok ({ s with nav := s.nav.turn .Right }, .Execute)
  | 60 =>  -- b'<'
    .ok ({ s with nav := s.nav.turn .Left }, .Execute)
  | 94 =>  -- b'^'
    .ok ({ s with nav := s.nav.turn .Up }, .Execute)
  | 118 =>  -- b'v'
    .ok ({ s with nav := s.nav.turn .Down }, .Execute)
  | 63 =>  -- b'?'
    .ok ({ s with nav := s.nav.turn (s.rand.headD .Right), rand := s.rand.tail }, .Execute)
  | 95 =>  -- b'_'
    let v := topD s.stack
    let r1 := s.stack.dropLast
    .ok ({ s with
           stack := r1
           nav := s.nav.turn (if v = 0 then .Right else .Left) }, .Execute)
  | 124 =>  -- b'|'
    let v := topD s.stack
    let r1 := s.stack.dropLast
    .ok ({ s with
           stack := r1
           nav := s.nav.turn (if v = 0 then .Down else .Up) }, .Execute)
  | 34 =>  -- b'"'
    .ok (s, .Parse)
  | 58 =>  -- b':'
    let v := topD s.stack
    let r1 := s.stack.dropLast
    .ok ({ s with stack := push v (push v r1) }, .Execute)
  | 92 =>  -- backslash
    let a := topD s.stack
    let r1 := s.stack.dropLast
    let b := topD r1
    let r2 := r1.dropLast
    .ok ({ s with stack := push b (push a r2) }, .Execute)
  | 36 =>  -- b'$'
    .ok ({ s with stack := s.stack.dropLast }, .Execute)
  | 46 =>  -- b'.'
    let v := topD s.stack
    let r1 := s.stack.dropLast
    .ok ({ s with stack := r1, io := write_int s.io v }, .Execute)
  | 44 =>  -- b','
    let v := topD s.stack
    let r1 := s.stack.dropLast
    .ok ({ s with stack := r1, io := write_ascii s.io v }, .Execute)
  | 35 =>  -- b'#'
    .ok ({ s with nav := s.nav.step }, .Execute)
  | 112 =>  -- b'p'
    let y := topD s.stack
    let r1 := s.stack.dropLast
    let x := topD r1
    let r2 := r1.dropLast
    let v := topD r2
    let r3 := r2.dropLast
    match s.field.set (toUSize64 x, toUSize64 y) (v % 256).toNat with
    | none => .error "index out of bounds"
    | some f => .ok ({ s with field := f, stack := r3 }, .Execute)
  | 103 =>  -- b'g'
    let y := topD s.stack
    let r1 := s.stack.dropLast
    let x := topD r1
    let r2 := r1.dropLast
    match s.field.get (toUSize64 x, toUSize64 y) with
    | none => .error "index out of bounds"
    | some v => .ok ({ s with stack := push (v : Int) r2 }, .Execute)
  | 38 =>  -- b'&'
    .ok ({ s with
           stack := push (read_int s.io.reader).1 s.stack
           io := { s.io with reader := (read_int s.io.reader).2 } }, .Execute)
  | 126 =>  -- b'~'
    .ok ({ s with
           stack := push (read_ascii s.io.reader).1 s.stack
           io := { s.io with reader := (read_ascii s.io.reader).2 } }, .Execute)
  | 64 =>  -- b'@'
    .ok (s, .Terminate)
  | 32 =>  -- b' '
    .ok (s, .Execute)
  | _ =>  -- Illegal characters
    .error ("Illegal character: ".push (Char.ofNat c))

/-- The set of instruction bytes handled by `execute_step` (everything that
does not fall through to the `Illegal character` panic). -/
def recognizedInstr (c : Nat) : Bool :=
  (decide (48 ≤ c ∧ c ≤ 57)) || c == 43 || c == 45 || c == 42 || c == 47 ||
    c == 37 || c == 33 || c == 96 || c == 62 || c == 60 || c == 94 ||
    c == 118 || c == 63 || c == 95 || c == 124 || c == 34 || c == 58 ||
    c == 92 || c == 36 || c == 46 || c == 44 || c == 35 || c == 112 ||
    c == 103 || c == 38 || c == 126 || c == 64 || c == 32

/-- `Interpreter::parse_step` (`interpreter.rs` lines 299–307): in string
mode, a quote switches back to `Execute`; any other cell's value is pushed
and the mode stays `Parse`. -/
def Interpreter.parse_step (s : Interpreter) (c : Nat) : Interpreter × Mode :=
  if c = 34 then (s, .Execute)
  else ({ s with stack := push (c : Int) s.stack }, .Parse)

/-- `Iterator::next` for `Interpreter` (`interpreter.rs` lines 317–333):
read the cell under the navigator, dispatch it through the mode-appropriate
handler, and advance the navigator unless the new mode is `Terminate`.
The returned `Bool` is `true` for `Some(())` (one step consumed) and
`false` for `None` (the run has ended). -/
def Interpreter.next (s : Interpreter) : Except String (Interpreter × Bool) :=
  match s.field.get s.nav.pos with
  | none => .error "index out of bounds"
  | some val =>
    match (match s.mode with
           | .Execute => s.execute_step val
           | .Parse => .ok (s.parse_step val)
           | .Terminate => .ok (s, .Terminate)) with
    | .error e => .error e
    | .ok (t, m) =>
      if m = Mode.Terminate then .ok ({ t with mode := m }, false)
      else .ok ({ t with mode := m, nav := t.nav.step }, true)

/-- Run `n` calls of `next`, threading the state (a terminated interpreter
keeps returning itself). -/
def runN (s : Interpreter) (n : Nat) : Except String Interpreter :=
  match n with
  | 0 => .ok s
  | n + 1 =>
    match s.next with
    | .error e => .error e
    | .ok (t, _) => runN t n

/-- The code points of a Lean string, the form `Playfield.new` consumes. -/
def strChars (s : String) : List Nat := s.data.map Char.toNat

/-- Build the interpreter the two binaries build: `Playfield::new` on the
source text, the given input bytes, empty output.  The sources used in the
theorems below are non-empty, so `Playfield.new` always succeeds on them;
the fallback state mirrors the fact that `Playfield::new` panics on input
without any line. -/
def mkInterp (source input : String) : Interpreter :=
  match Playfield.new (strChars source) with
  | some f => Interpreter.new f { reader := strChars input, writer := [] } []
  | none => Interpreter.new { field := [], width := 0, height := 0 }
      { reader := strChars input, writer := [] } []

/-- The flat buffer index the `p`/`g` instructions compute from popped
coordinates: `x as usize + width * (y as usize)`, in wrapping
(release-profile) `usize` arithmetic, i.e. modulo 2^64.  (Wrapping the
product and the sum separately, as the hardware does, gives the same
residue as one outer reduction.) -/
def flatIdx (p : Playfield) (x y : Int) : Nat :=
  (toUSize64 x + p.width * toUSize64 y) % 2 ^ 64

instance exceptDecidableEq {ε α : Type} [DecidableEq ε] [DecidableEq α] :
    DecidableEq (Except ε α) := fun x y =>
  match x, y with
  | .ok a, .ok b => if h : a = b then .isTrue (by rw [h]) else .isFalse (by simp [h])
  | .error e, .error f => if h : e = f then .isTrue (by rw [h]) else .isFalse (by simp [h])
  | .ok _, .error _ => .isFalse (by simp)
  | .error _, .ok _ => .isFalse (by simp)

/-- A one-row interpreter state used to instantiate the general theorems at
concrete inputs. -/
def sampleInterp (cells : List Nat) (w h : Nat) (stack : List Int)
    (reader : List Nat) (mode : Mode) : Interpreter :=
  { field := { field := cells, width := w, height := h }
    io := { reader := reader, writer := [] }
    nav := { width := w, height := h, pos := (0, 0), dir := .Right }
    stack := stack
    mode := mode
    rand := [] }

theorem read_int_nil : read_int [] = (0, []) := rfl

theorem read_ascii_nil : read_ascii [] = (-1, []) := rfl

/-- C1: binary-operator operand order.  In Execute mode `-` pops `a` (the
value pushed last) and then `b`, and pushes `b - a` (wrapped into the `i64`
range, the identity whenever the difference fits); running `"73-"` for three
steps leaves the stack equal to `[4] = [7 - 3]`. -/
theorem exec_sub_operand_order :
    (∀ (s : Interpreter) (st : List Int) (a b : Int), s.stack = st ++ [b, a] →
      s.execute_step 45 =
        .ok ({ s with stack := st ++ [wrap64 (b - a)] }, Mode.Execute)) ∧
    (∀ a b : Int, -(2 ^ 63) ≤ b - a → b - a < 2 ^ 63 → wrap64 (b - a) = b - a) ∧
    (runN (mkInterp "73-" "") 3).map Interpreter.stack = .ok [4] := by
  refine ⟨?_, ?_, ?_⟩
  · intro s st a b h
    have h2 : s.stack = (st ++ [b]) ++ [a] := by simpa using h
    simp [Interpreter.execute_step, h2, topD, push]
  · intro a b h1 h2
    unfold wrap64
    omega
  · rfl

/-- C1 witness: the general conjuncts applied to the concrete stack
`[7, 3]`. -/
theorem exec_sub_operand_order_witness :
    (sampleInterp [45] 1 1 [7, 3] [] .Execute).execute_step 45 =
      .ok ({ sampleInterp [45] 1 1 [7, 3] [] .Execute with
             stack := [] ++ [wrap64 (7 - 3)] }, Mode.Execute) ∧
    wrap64 (7 - 3) = 7 - 3 :=
  ⟨exec_sub_operand_order.1 (sampleInterp [45] 1 1 [7, 3] [] .Execute) [] 3 7 rfl,
   exec_sub_operand_order.2.1 3 7 (by decide) (by decide)⟩

/-- C10: `/` and `%` perform unguarded integer division: whenever the popped
divisor `a` is `0` — including the empty-stack pop falling back to `0` — the
step aborts with the division-by-zero panic.  Both `"0/"` and `"/"` (empty
stack) abort. -/
theorem div_by_zero_aborts :
    (∀ s : Interpreter, topD s.stack = 0 →
      s.execute_step 47 = .error "attempt to divide by zero" ∧
      s.execute_step 37 =
        .error "attempt to calculate the remainder with a divisor of zero") ∧
    runN (mkInterp "0/" "") 2 = .error "attempt to divide by zero" ∧
    runN (mkInterp "/" "") 1 = .error "attempt to divide by zero" := by
  refine ⟨?_, rfl, rfl⟩
  intro s h
  constructor <;> simp [Interpreter.execute_step, h]

/-- C10 witness: the general conjunct applied to the empty stack. -/
theorem div_by_zero_aborts_witness :
    (sampleInterp [47] 1 1 [] [] .Execute).execute_step 47 =
      .error "attempt to divide by zero" :=
  (div_by_zero_aborts.1 (sampleInterp [47] 1 1 [] [] .Execute) rfl).1

/-- C3: string-mode semantics.  In Execute mode the quote switches to
`Parse`; in `Parse` mode every non-quote cell's value is pushed and the mode
stays `Parse`, and the quote switches back to `Execute` without pushing.
Running `"\"abc\""`: after four steps the stack is `[0x61, 0x62, 0x63]`, the
mode is still `Parse` and the navigator sits on the closing delimiter at
`(4, 0)`; the fifth step — the closing delimiter — restores `Execute` with
the stack unchanged. -/
theorem string_mode_semantics :
    (∀ s : Interpreter, s.execute_step 34 = .ok (s, Mode.Parse)) ∧
    (∀ (s : Interpreter) (c : Nat), c ≠ 34 →
      s.parse_step c = ({ s with stack := push (c : Int) s.stack }, Mode.Parse)) ∧
    (∀ s : Interpreter, s.parse_step 34 = (s, Mode.Execute)) ∧
    (runN (mkInterp "\"abc\"" "") 4).map (fun t => (t.stack, t.mode, t.nav.pos)) =
      .ok ([0x61, 0x62, 0x63], Mode.Parse, (4, 0)) ∧
    (runN (mkInterp "\"abc\"" "") 5).map (fun t => (t.stack, t.mode, t.nav.pos)) =
      .ok ([0x61, 0x62, 0x63], Mode.Execute, (0, 0)) := by
  refine ⟨?_, ?_, ?_, rfl, rfl⟩
  · intro s
    simp [Interpreter.execute_step]
  · intro s c h
    simp [Interpreter.parse_step, h]
  · intro s
    simp [Interpreter.parse_step]

/-- C3 witness: the parse-mode conjunct applied to the cell value `0x61`. -/
theorem string_mode_semantics_witness :
    (sampleInterp [34, 97] 2 1 [] [] .Parse).parse_step 97 =
      ({ sampleInterp [34, 97] 2 1 [] [] .Parse with
         stack := push 97 (sampleInterp [34, 97] 2 1 [] [] .Parse).stack }, Mode.Parse) :=
  string_mode_semantics.2.1 (sampleInterp [34, 97] 2 1 [] [] .Parse) 97 (by decide)

/-- C8: input fallback values.  `&` reads one line, trims whitespace and
parses it as a signed 64-bit integer, pushing the parsed value and falling
back to `0` on EOF or parse failure (including overflow), never aborting;
`~` reads one byte and pushes its unsigned value, or `-1` when the input is
exhausted. -/
theorem input_fallback :
    (∀ s : Interpreter, s.execute_step 38 = .ok ({ s with
        stack := push (read_int s.io.reader).1 s.stack
        io := { s.io with reader := (read_int s.io.reader).2 } }, Mode.Execute)) ∧
    (∀ s : Interpreter, s.io.reader = [] →
      s.execute_step 38 = .ok ({ s with stack := push 0 s.stack }, Mode.Execute)) ∧
    (∀ s : Interpreter, s.io.reader = [] →
      s.execute_step 126 = .ok ({ s with stack := push (-1) s.stack }, Mode.Execute)) ∧
    (∀ (s : Interpreter) (b : Nat) (rest : List Nat), s.io.reader = b :: rest →
      s.execute_step 126 = .ok ({ s with
        stack := push (b : Int) s.stack
        io := { s.io with reader := rest } }, Mode.Execute)) ∧
    read_int (strChars "  42  \nrest") = (42, strChars "rest") ∧
    read_int (strChars "abc\n") = (0, []) ∧
    read_int (strChars "99999999999999999999\n") = (0, []) ∧
    read_int (strChars "-7\n") = (-7, []) := by
  refine ⟨?_, ?_, ?_, ?_, rfl, rfl, rfl, rfl⟩
  · intro s
    simp [Interpreter.execute_step]
  · intro s h
    obtain ⟨f, ⟨r, w⟩, nav, st, m, rd⟩ := s
    simp only at h
    subst h
    simp [Interpreter.execute_step, read_int_nil]
  · intro s h
    obtain ⟨f, ⟨r, w⟩, nav, st, m, rd⟩ := s
    simp only at h
    subst h
    simp [Interpreter.execute_step, read_ascii_nil]
  · intro s b rest h
    obtain ⟨f, ⟨r, w⟩, nav, st, m, rd⟩ := s
    simp only at h
    subst h
    simp [Interpreter.execute_step, read_ascii]

/-- C8 witness: EOF fallbacks applied to a concrete exhausted-input state. -/
theorem input_fallback_witness :
    (sampleInterp [38] 1 1 [] [] .Execute).execute_step 38 =
      .ok ({ sampleInterp [38] 1 1 [] [] .Execute with
             stack := push 0 (sampleInterp [38] 1 1 [] [] .Execute).stack }, Mode.Execute) ∧
    (sampleInterp [126] 1 1 [] [] .Execute).execute_step 126 =
      .ok ({ sampleInterp [126] 1 1 [] [] .Execute with
             stack := push (-1) (sampleInterp [126] 1 1 [] [] .Execute).stack }, Mode.Execute) :=
  ⟨input_fallback.2.1 (sampleInterp [38] 1 1 [] [] .Execute) rfl,
   input_fallback.2.2.1 (sampleInterp [126] 1 1 [] [] .Execute) rfl⟩

theorem iter_right (w h x y : Nat) (hx : x < w) (k : Nat) :
    PlayfieldNavigator.step^[k] ⟨w, h, (x, y), .Right⟩ = ⟨w, h, ((x + k) % w, y), .Right⟩ := by
  induction k with
  | zero => simp [Nat.mod_eq_of_lt hx]
  | succ k ih =>
    rw [Function.iterate_succ_apply', ih]
    have hm : (x + k) % w < w := Nat.mod_lt _ (by omega)
    have hkey := Nat.mod_add_mod (x + k) w 1
    unfold PlayfieldNavigator.step
    simp only
    split_ifs with hlt
    · have h1 : (x + (k + 1)) % w = (x + k) % w + 1 := by
        rw [show x + (k + 1) = x + k + 1 by omega, ← hkey, Nat.mod_eq_of_lt (by omega)]
      rw [h1]
    · have h1 : (x + (k + 1)) % w = 0 := by
        rw [show x + (k + 1) = x + k + 1 by omega, ← hkey,
          show (x + k) % w = w - 1 by omega, show w - 1 + 1 = w by omega, Nat.mod_self]
      rw [h1]

theorem iter_down (w h x y : Nat) (hy : y < h) (k : Nat) :
    PlayfieldNavigator.step^[k] ⟨w, h, (x, y), .Down⟩ = ⟨w, h, (x, (y + k) % h), .Down⟩ := by
  induction k with
  | zero => simp [Nat.mod_eq_of_lt hy]
  | succ k ih =>
    rw [Function.iterate_succ_apply', ih]
    have hm : (y + k) % h < h := Nat.mod_lt _ (by omega)
    have hkey := Nat.mod_add_mod (y + k) h 1
    unfold PlayfieldNavigator.step
    simp only
    split_ifs with hlt
    · have h1 : (y + (k + 1)) % h = (y + k) % h + 1 := by
        rw [show y + (k + 1) = y + k + 1 by omega, ← hkey, Nat.mod_eq_of_lt (by omega)]
      rw [h1]
    · have h1 : (y + (k + 1)) % h = 0 := by
        rw [show y + (k + 1) = y + k + 1 by omega, ← hkey,
          show (y + k) % h = h - 1 by omega, show h - 1 + 1 = h by omega, Nat.mod_self]
      rw [h1]

theorem iter_up (w h x y : Nat) (hy : y < h) (k : Nat) :
    PlayfieldNavigator.step^[k] ⟨w, h, (x, y), .Up⟩ = ⟨w, h, (x, (y + k * (h - 1)) % h), .Up⟩ := by
  induction k with
  | zero => simp [Nat.mod_eq_of_lt hy]
  | succ k ih =>
    rw [Function.iterate_succ_apply', ih]
    have hm : (y + k * (h - 1)) % h < h := Nat.mod_lt _ (by omega)
    have hkey := Nat.mod_add_mod (y + k * (h - 1)) h (h - 1)
    have harith : y + (k + 1) * (h - 1) = y + k * (h - 1) + (h - 1) := by ring
    unfold PlayfieldNavigator.step
    simp only
    split_ifs with hpos
    · have h1 : (y + (k + 1) * (h - 1)) % h = (y + k * (h - 1)) % h - 1 := by
        rw [harith, ← hkey,
          show (y + k * (h - 1)) % h + (h - 1) = (y + k * (h - 1)) % h - 1 + h by omega,
          Nat.add_mod_right, Nat.mod_eq_of_lt (by omega)]
      rw [h1]
    · have h1 : (y + (k + 1) * (h - 1)) % h = h - 1 := by
        rw [harith, ← hkey, show (y + k * (h - 1)) % h = 0 by omega, Nat.zero_add,
          Nat.mod_eq_of_lt (by omega)]
      rw [h1]

/-- C2: toroidal closure of the Navigator.  For every grid with `width ≥ 1`
and `height ≥ 1` and every in-bounds starting position, `step()` called
exactly `width` times while facing Right returns the `x` coordinate to its
original value, and `step()` called exactly `height` times while facing
Down or Up returns the `y` coordinate to its original value. -/
theorem navigator_toroidal_closure (n : PlayfieldNavigator)
    (hw : 1 ≤ n.width) (hh : 1 ≤ n.height)
    (hx : n.pos.1 < n.width) (hy : n.pos.2 < n.height) :
    (n.dir = .Right → (PlayfieldNavigator.step^[n.width] n).pos.1 = n.pos.1) ∧
    (n.dir = .Down → (PlayfieldNavigator.step^[n.height] n).pos.2 = n.pos.2) ∧
    (n.dir = .Up → (PlayfieldNavigator.step^[n.height] n).pos.2 = n.pos.2) := by
  obtain ⟨w, h, ⟨x, y⟩, d⟩ := n
  simp only at hw hh hx hy
  refine ⟨?_, ?_, ?_⟩ <;> intro hd <;> simp only at hd <;> subst hd
  · rw [iter_right w h x y hx w]
    simp [Nat.add_mod_right, Nat.mod_eq_of_lt hx]
  · rw [iter_down w h x y hy h]
    simp [Nat.add_mod_right, Nat.mod_eq_of_lt hy]
  · rw [iter_up w h x y hy h]
    have : y + h * (h - 1) = y + (h - 1) * h := by ring
    rw [this, Nat.add_mul_mod_self_right]
    simp [Nat.mod_eq_of_lt hy]

/-- C2 witness: the three conjuncts applied to concrete navigators over a
3×2 grid starting at `(1, 1)`. -/
theorem navigator_toroidal_closure_witness :
    (PlayfieldNavigator.step^[3] ⟨3, 2, (1, 1), .Right⟩).pos.1 = 1 ∧
    (PlayfieldNavigator.step^[2] ⟨3, 2, (1, 1), .Down⟩).pos.2 = 1 ∧
    (PlayfieldNavigator.step^[2] ⟨3, 2, (1, 1), .Up⟩).pos.2 = 1 :=
  ⟨(navigator_toroidal_closure ⟨3, 2, (1, 1), .Right⟩ (by decide) (by decide)
      (by decide) (by decide)).1 rfl,
   (navigator_toroidal_closure ⟨3, 2, (1, 1), .Down⟩ (by decide) (by decide)
      (by decide) (by decide)).2.1 rfl,
   (navigator_toroidal_closure ⟨3, 2, (1, 1), .Up⟩ (by decide) (by decide)
      (by decide) (by decide)).2.2 rfl⟩

set_option maxHeartbeats 1600000 in
/-- The only `execute_step` outcome whose next mode is `Terminate` is the
`@` handler, which leaves the interpreter untouched. -/
theorem execute_step_terminate (s t : Interpreter) (c : Nat) (m : Mode)
    (hex : s.execute_step c = .ok (t, m)) (hm : m = Mode.Terminate) : t = s := by
  subst hm
  unfold Interpreter.execute_step at hex
  split at hex
  all_goals simp at hex
  all_goals try (subst hex; rfl)
  all_goals try (split_ifs at hex <;> simp at hex)
  all_goals (split at hex <;> simp at hex)

/-- C4: `Terminate` is absorbing and entering it does not advance the
Navigator.  First conjunct: a `next` call in `Terminate` mode changes no
state (mode, stack, grid, navigator, input, output are all unchanged) and
reports completion (`false`, i.e. the iterator's `None`).  Second conjunct:
whenever a `next` call reports completion, the state it leaves behind is the
previous state with only the mode set to `Terminate` — in particular the
navigator was not advanced. -/
theorem terminate_absorbing :
    (∀ s : Interpreter, s.mode = Mode.Terminate → (s.field.get s.nav.pos).isSome →
      s.next = .ok (s, false)) ∧
    (∀ s t : Interpreter, s.next = .ok (t, false) →
      t = { s with mode := Mode.Terminate }) := by
  constructor
  · intro s hm hsome
    unfold Interpreter.next
    cases hget : s.field.get s.nav.pos with
    | none => rw [hget] at hsome; simp at hsome
    | some v =>
      rw [hm]
      obtain ⟨f, io, nav, st, m, rd⟩ := s
      simp only at hm
      subst hm
      simp
  · intro s t hnext
    unfold Interpreter.next at hnext
    cases hget : s.field.get s.nav.pos with
    | none => rw [hget] at hnext; contradiction
    | some v =>
      rw [hget] at hnext
      cases hmode : s.mode with
      | Terminate =>
        rw [hmode] at hnext
        simp only at hnext
        obtain ⟨f, io, nav, st, m, rd⟩ := s
        simp only at hmode
        subst hmode
        simp at hnext ⊢
        exact hnext.symm
      | Parse =>
        rw [hmode] at hnext
        simp only [Interpreter.parse_step] at hnext
        split_ifs at hnext <;> simp_all
      | Execute =>
        rw [hmode] at hnext
        simp only at hnext
        cases hex : s.execute_step v with
        | error e => rw [hex] at hnext; contradiction
        | ok p =>
          obtain ⟨t0, m0⟩ := p
          rw [hex] at hnext
          simp only at hnext
          split_ifs at hnext with hTm
          · have ht0 : t0 = s := execute_step_terminate s t0 v m0 hex hTm
            simp only [Except.ok.injEq, Prod.mk.injEq] at hnext
            subst hTm
            subst ht0
            exact hnext.1.symm
          · simp at hnext

/-- C4 witness: both conjuncts applied to a concrete terminated state. -/
theorem terminate_absorbing_witness :
    (sampleInterp [64] 1 1 [] [] .Terminate).next =
      .ok (sampleInterp [64] 1 1 [] [] .Terminate, false) ∧
    sampleInterp [64] 1 1 [] [] .Terminate =
      { sampleInterp [64] 1 1 [] [] .Terminate with mode := Mode.Terminate } :=
  ⟨terminate_absorbing.1 (sampleInterp [64] 1 1 [] [] .Terminate) rfl (by decide),
   terminate_absorbing.2 (sampleInterp [64] 1 1 [] [] .Terminate)
     (sampleInterp [64] 1 1 [] [] .Terminate)
     (terminate_absorbing.1 (sampleInterp [64] 1 1 [] [] .Terminate) rfl (by decide))⟩

/-- C5 counterexample: the claim says that for every recognized instruction
and any stack the step never aborts.  `/` is a recognized instruction, yet
on the empty stack the divisor pop falls back to `0` and the step aborts
with a division-by-zero panic. -/
theorem totality_counterexample :
    recognizedInstr 47 = true ∧
    (sampleInterp [47] 1 1 [] [] .Execute).execute_step 47 =
      .error "attempt to divide by zero" :=
  ⟨rfl, rfl⟩

/-- C5 amended: pops from an empty stack yield `0` (second conjunct shows
`+` on the empty stack pushing `0 + 0 = 0`), and the step function is total
for every recognized instruction other than `/` and `%` (which abort when
the popped divisor is `0`) and `p` and `g` (which abort when the popped
coordinates index outside the buffer). -/
theorem exec_total_amended :
    (∀ (s : Interpreter) (c : Nat), recognizedInstr c = true →
      c ≠ 47 → c ≠ 37 → c ≠ 112 → c ≠ 103 → (s.execute_step c).isOk = true) ∧
    (∀ s : Interpreter, s.stack = [] →
      s.execute_step 43 = .ok ({ s with stack := [0] }, Mode.Execute)) := by
  constructor
  · intro s c hrec h47 h37 h112 h103
    unfold Interpreter.execute_step
    split
    all_goals try rfl
    all_goals try (exact absurd rfl h47)
    all_goals try (exact absurd rfl h37)
    all_goals try (exact absurd rfl h112)
    all_goals try (exact absurd rfl h103)
    exfalso
    simp only [recognizedInstr, Bool.or_eq_true, beq_iff_eq, decide_eq_true_eq] at hrec
    simp_all only [imp_false, or_false, false_or]
    omega
  · intro s h
    obtain ⟨f, io, nav, st, m, rd⟩ := s
    simp only at h
    subst h
    simp [Interpreter.execute_step, topD, push, wrap64]

/-- C5 witness: the amended conjuncts applied to `+` on the empty stack. -/
theorem exec_total_amended_witness :
    ((sampleInterp [43] 1 1 [] [] .Execute).execute_step 43).isOk = true ∧
    (sampleInterp [43] 1 1 [] [] .Execute).execute_step 43 =
      .ok ({ sampleInterp [43] 1 1 [] [] .Execute with stack := [0] }, Mode.Execute) :=
  ⟨exec_total_amended.1 (sampleInterp [43] 1 1 [] [] .Execute) 43 rfl
      (by decide) (by decide) (by decide) (by decide),
   exec_total_amended.2 (sampleInterp [43] 1 1 [] [] .Execute) rfl⟩

/-- C9 counterexample: the claim says the diagnostic identifies the
offending character and its grid position.  The programs `"x"` (illegal
cell at grid position `(0, 0)`) and `" x"` (illegal cell at `(1, 0)`)
abort with the identical diagnostic `"Illegal character: x"`, so the
diagnostic does not identify the grid position. -/
theorem illegal_char_diagnostic_counterexample :
    runN (mkInterp "x" "") 1 = .error "Illegal character: x" ∧
    runN (mkInterp " x" "") 2 = .error "Illegal character: x" ∧
    (mkInterp "x" "").nav.pos = (0, 0) ∧
    ((mkInterp " x" "").next.map fun r => r.1.nav.pos) = .ok (1, 0) :=
  ⟨rfl, rfl, rfl, rfl⟩

/-- C9 amended: executing any character that is not in the instruction
table (space included in the table as the no-op) aborts the run immediately
with the diagnostic `"Illegal character: c"`, which identifies the
offending character but not its grid position. -/
theorem illegal_char_fatal_amended (s : Interpreter) (c : Nat)
    (h : recognizedInstr c = false) :
    s.execute_step c = .error ("Illegal character: ".push (Char.ofNat c)) := by
  unfold Interpreter.execute_step
  split
  all_goals try rfl
  all_goals simp [recognizedInstr] at h

/-- C9 witness: the amended theorem applied to the byte `0x78` (`x`). -/
theorem illegal_char_fatal_amended_witness :
    (sampleInterp [120] 1 1 [] [] .Execute).execute_step 120 =
      .error ("Illegal character: ".push (Char.ofNat 120)) :=
  illegal_char_fatal_amended (sampleInterp [120] 1 1 [] [] .Execute) 120 rfl

/-- C6 counterexample: the claim says `p`/`g` with out-of-grid coordinates
always abort.  On the 2×2 grid `"ab\ncd"` executing `g` with popped
coordinates `x = 2, y = 0` — out of bounds, since `x < width = 2` fails —
does not abort: the flat index `x + width * y = 2` is inside the buffer, so
it silently reads cell `(0, 1)` (byte `0x63`, `c`) and pushes it. -/
theorem pg_out_of_bounds_counterexample :
    (sampleInterp [97, 98, 99, 100] 2 2 [2, 0] [] .Execute).execute_step 103 =
      .ok ({ sampleInterp [97, 98, 99, 100] 2 2 [2, 0] [] .Execute with
             stack := [99] }, Mode.Execute) ∧
    ¬(toUSize64 2 < 2) :=
  ⟨rfl, by decide⟩

/-- C6 amended: `p` and `g` abort with the index-out-of-bounds panic exactly
when the flattened index `x + width * y` — computed with the `i64 → usize`
cast in wrapping (release-profile) `usize` arithmetic, i.e. modulo 2^64 —
falls outside the flat buffer; when the flattened (wrapped) index is inside
the buffer — even with `x ≥ width`, or with negative `x` wrapping back
around — they silently access the cell at that flat offset instead of
aborting.  The last conjunct exercises the wrap-around: in `"01-1g"` the
`g` pops `x = -1, y = 1` on the width-5 grid, the index `2^64 - 1 + 5`
wraps to `4`, and the cell `'g'` (0x67) is pushed rather than aborting. -/
theorem pg_flat_index_amended :
    (∀ (s : Interpreter) (st : List Int) (x y : Int), s.stack = st ++ [x, y] →
      (flatIdx s.field x y < s.field.field.length →
        s.execute_step 103 =
          .ok ({ s with
                 stack := st ++ [(↑(s.field.field.getD (flatIdx s.field x y) 0) : Int)] },
            Mode.Execute)) ∧
      (s.field.field.length ≤ flatIdx s.field x y →
        s.execute_step 103 = .error "index out of bounds")) ∧
    (∀ (s : Interpreter) (st : List Int) (v x y : Int), s.stack = st ++ [v, x, y] →
      (flatIdx s.field x y < s.field.field.length →
        s.execute_step 112 =
          .ok ({ s with
                 field := { s.field with
                            field := s.field.field.set (flatIdx s.field x y) (v % 256).toNat }
                 stack := st }, Mode.Execute)) ∧
      (s.field.field.length ≤ flatIdx s.field x y →
        s.execute_step 112 = .error "index out of bounds")) ∧
    (runN (mkInterp "01-1g" "") 5).map Interpreter.stack = .ok [103] := by
  refine ⟨?_, ?_, rfl⟩
  · intro s st x y h
    have h2 : s.stack = (st ++ [x]) ++ [y] := by simpa using h
    constructor
    · intro hin
      have hin2 : (toUSize64 x + s.field.width * toUSize64 y) % 2 ^ 64 <
          s.field.field.length := hin
      have hget : s.field.get (toUSize64 x, toUSize64 y) =
          some (s.field.field.getD (flatIdx s.field x y) 0) := by
        simp only [Playfield.get, flatIdx, List.getD_eq_getElem?_getD,
          List.getElem?_eq_getElem hin2, Option.getD_some]
      simp [Interpreter.execute_step, h2, topD, push, hget]
    · intro hout
      have hget : s.field.get (toUSize64 x, toUSize64 y) = none := by
        simpa [Playfield.get, flatIdx] using List.getElem?_eq_none hout
      simp [Interpreter.execute_step, h2, topD, hget]
  · intro s st v x y h
    have h2 : s.stack = ((st ++ [v]) ++ [x]) ++ [y] := by simpa using h
    constructor
    · intro hin
      have hset : s.field.set (toUSize64 x, toUSize64 y) (v % 256).toNat =
          some { s.field with
                 field := s.field.field.set (flatIdx s.field x y) (v % 256).toNat } := by
        simp [Playfield.set, flatIdx] at hin ⊢
        simp [hin]
      simp [Interpreter.execute_step, h2, topD, hset]
    · intro hout
      have hset : s.field.set (toUSize64 x, toUSize64 y) (v % 256).toNat = none := by
        simp [Playfield.set, flatIdx] at hout ⊢
        omega
      simp [Interpreter.execute_step, h2, topD, hset]

/-- C6 witness: the amended in-bounds conjuncts applied to concrete `g` and
`p` executions on the 2×2 grid `"ab\ncd"`. -/
theorem pg_flat_index_amended_witness :
    (sampleInterp [97, 98, 99, 100] 2 2 [1, 1] [] .Execute).execute_step 103 =
      .ok ({ sampleInterp [97, 98, 99, 100] 2 2 [1, 1] [] .Execute with
             stack := [(100 : Int)] }, Mode.Execute) ∧
    (sampleInterp [97, 98, 99, 100] 2 2 [5, 0, 1] [] .Execute).execute_step 112 =
      .ok ({ sampleInterp [97, 98, 99, 100] 2 2 [5, 0, 1] [] .Execute with
             field := { field := [97, 98, 5, 100], width := 2, height := 2 }
             stack := [] }, Mode.Execute) :=
  ⟨(pg_flat_index_amended.1 (sampleInterp [97, 98, 99, 100] 2 2 [1, 1] [] .Execute)
      [] 1 1 rfl).1 (by decide),
   (pg_flat_index_amended.2.1 (sampleInterp [97, 98, 99, 100] 2 2 [5, 0, 1] [] .Execute)
      [] 5 0 1 rfl).1 (by decide)⟩

theorem splitNl_ne_nil (s : List Nat) : splitNl s ≠ [] := by
  induction s with
  | nil => simp [splitNl]
  | cons b rest ih =>
    simp only [splitNl]
    split_ifs
    · simp
    · split <;> simp

theorem two_le_length_splitNl (s : List Nat) (h10 : 10 ∈ s) :
    2 ≤ (splitNl s).length := by
  induction s with
  | nil => simp at h10
  | cons b rest ih =>
    simp only [splitNl]
    split_ifs with hb
    · have h1 : 0 < (splitNl rest).length := List.length_pos.mpr (splitNl_ne_nil rest)
      simp only [List.length_cons]
      omega
    · have h10r : 10 ∈ rest := by
        rcases List.mem_cons.mp h10 with h | h
        · omega
        · exact h
      have h2 := ih h10r
      cases hsp : splitNl rest with
      | nil => exact absurd hsp (splitNl_ne_nil rest)
      | cons l ls =>
        rw [hsp] at h2
        simpa using h2

theorem rustLines_ne_nil (s : List Nat) (hne : s ≠ []) : rustLines s ≠ [] := by
  simp only [rustLines]
  split_ifs with hc
  · rcases hc with hc | hc
    · have h10 : 10 ∈ s := by
        obtain ⟨l, rfl⟩ := List.getLast?_eq_some_iff.mp hc
        simp
      have h2 := two_le_length_splitNl s h10
      intro hmap
      have := congrArg List.length hmap
      simp at this
      omega
    · exact absurd hc hne
  · intro hmap
    have := congrArg List.length hmap
    simp at this
    exact splitNl_ne_nil s this

theorem mem_splitNl (s : List Nat) : ∀ l ∈ splitNl s, ∀ b ∈ l, b ∈ s := by
  induction s with
  | nil =>
    intro l hl b hb
    simp [splitNl] at hl
    subst hl
    simp at hb
  | cons a rest ih =>
    intro l hl b hb
    simp only [splitNl] at hl
    split_ifs at hl with ha
    · rcases List.mem_cons.mp hl with h | h
      · subst h; simp at hb
      · exact List.mem_cons_of_mem _ (ih l h b hb)
    · cases hsp : splitNl rest with
      | nil => exact absurd hsp (splitNl_ne_nil rest)
      | cons l0 ls0 =>
        rw [hsp] at hl
        rcases List.mem_cons.mp hl with h | h
        · subst h
          rcases List.mem_cons.mp hb with h1 | h1
          · subst h1; exact List.mem_cons_self _ _
          · have hm : l0 ∈ splitNl rest := by rw [hsp]; exact List.mem_cons_self _ _
            exact List.mem_cons_of_mem _ (ih l0 hm b h1)
        · have hm : l ∈ splitNl rest := by rw [hsp]; exact List.mem_cons_of_mem _ h
          exact List.mem_cons_of_mem _ (ih l hm b hb)

theorem mem_rustLines (s : List Nat) : ∀ l ∈ rustLines s, ∀ b ∈ l, b ∈ s := by
  intro l hl b hb
  simp only [rustLines] at hl
  rcases List.mem_map.mp hl with ⟨l0, hl0, rfl⟩
  have hl0' : l0 ∈ splitNl s := by
    split_ifs at hl0
    · exact (List.dropLast_sublist _).subset hl0
    · exact hl0
  have hb' : b ∈ l0 := by
    unfold stripCR at hb
    split_ifs at hb
    · exact (List.dropLast_sublist _).subset hb
    · exact hb
  exact mem_splitNl s l0 hl0' b hb'

theorem utf8Bytes_ascii (b : Nat) (h : b < 128) : utf8Bytes b = [b] := by
  simp [utf8Bytes, h]

theorem utf8Encode_ascii (l : List Nat) (h : ∀ b ∈ l, b < 128) : utf8Encode l = l := by
  induction l with
  | nil => rfl
  | cons b bs ih =>
    rw [utf8Encode, utf8Bytes_ascii b (h b (List.mem_cons_self _ _)),
      ih (fun x hx => h x (List.mem_cons_of_mem _ hx))]
    rfl

theorem maxLen_le (ls : List (List Nat)) (l : List Nat) (h : l ∈ ls) :
    l.length ≤ maxLen ls := by
  induction ls with
  | nil => simp at h
  | cons l0 ls0 ih =>
    rcases List.mem_cons.mp h with h1 | h1
    · subst h1; exact le_max_left _ _
    · exact le_trans (ih h1) (le_max_right _ _)

theorem padLine_length (w : Nat) (l : List Nat) (h : l.length ≤ w) :
    (padLine w l).length = w := by
  simp [padLine]
  omega

theorem padLine_ascii (w : Nat) (l : List Nat) (h : ∀ b ∈ l, b < 128) :
    ∀ b ∈ padLine w l, b < 128 := by
  intro b hb
  rcases List.mem_append.mp hb with h1 | h1
  · exact h b h1
  · have := List.eq_of_mem_replicate h1
    omega

theorem buildField_ascii (w : Nat) (ls : List (List Nat))
    (h : ∀ l ∈ ls, ∀ b ∈ l, b < 128) : buildField w ls = ls.flatMap (padLine w) := by
  induction ls with
  | nil => rfl
  | cons l0 ls0 ih =>
    rw [buildField, List.flatMap_cons,
      utf8Encode_ascii _ (padLine_ascii w l0 (h l0 (List.mem_cons_self _ _))),
      ih (fun l hl => h l (List.mem_cons_of_mem _ hl))]

theorem length_flatMap_pad (w : Nat) (ls : List (List Nat))
    (h : ∀ l ∈ ls, l.length ≤ w) : (ls.flatMap (padLine w)).length = ls.length * w := by
  induction ls with
  | nil => simp
  | cons l0 ls0 ih =>
    rw [List.flatMap_cons, List.length_append, padLine_length w l0 (h l0 (List.mem_cons_self _ _)),
      ih (fun l hl => h l (List.mem_cons_of_mem _ hl)), List.length_cons, Nat.succ_mul]
    omega

/-- C7 counterexample: the claim quantifies over every non-empty source
text, but for the non-ASCII one-character source `"\u{e9}"` (code point 233,
a two-byte UTF-8 character) `Playfield::new` produces `width = 1` (the
character count of the longest line), `height = 1`, and a buffer of the two
UTF-8 bytes `[0xC3, 0xA9]` — so `buffer.length = 2 ≠ 1 = width * height`. -/
theorem playfield_new_counterexample :
    Playfield.new [233] = some { field := [195, 169], width := 1, height := 1 } ∧
    ¬((2 : Nat) = 1 * 1) :=
  ⟨rfl, by decide⟩

/-- C7 amended: for every non-empty source text all of whose characters are
single-byte (ASCII, code point < 128), `Playfield.new` yields a grid whose
width is the length of the longest input line, whose height is the number
of lines, whose buffer is the concatenation of the lines each right-padded
with the space character (0x20) up to the width, and whose buffer length
equals `width * height`. -/
theorem playfield_new_invariant_ascii (input : List Nat) (hne : input ≠ [])
    (hascii : ∀ b ∈ input, b < 128) :
    ∃ p, Playfield.new input = some p ∧
      p.width = maxLen (rustLines input) ∧
      p.height = (rustLines input).length ∧
      p.field = (rustLines input).flatMap (padLine p.width) ∧
      p.field.length = p.width * p.height := by
  have hlines : ∀ l ∈ rustLines input, ∀ b ∈ l, b < 128 :=
    fun l hl b hb => hascii b (mem_rustLines input l hl b hb)
  have hle : ∀ l ∈ rustLines input, l.length ≤ maxLen (rustLines input) :=
    fun l hl => maxLen_le _ l hl
  cases hl : rustLines input with
  | nil => exact absurd hl (rustLines_ne_nil input hne)
  | cons l0 ls0 =>
    rw [hl] at hlines hle
    refine ⟨{ field := buildField (maxLen (l0 :: ls0)) (l0 :: ls0)
              width := maxLen (l0 :: ls0)
              height := (l0 :: ls0).length }, ?_, ?_, ?_, ?_, ?_⟩
    · unfold Playfield.new
      rw [hl]
    · rfl
    · rfl
    · exact buildField_ascii _ _ hlines
    · simp only
      rw [buildField_ascii _ _ hlines, length_flatMap_pad _ _ hle, Nat.mul_comm]

/-- C7 witness: the amended theorem applied to the repository's own test
input `"abc\nde\nx yz\n"` (longest line 4, three lines). -/
theorem playfield_new_invariant_ascii_witness :
    ∃ p, Playfield.new (strChars "abc\nde\nx yz\n") = some p ∧
      p.width = maxLen (rustLines (strChars "abc\nde\nx yz\n")) ∧
      p.height = (rustLines (strChars "abc\nde\nx yz\n")).length ∧
      p.field = (rustLines (strChars "abc\nde\nx yz\n")).flatMap (padLine p.width) ∧
      p.field.length = p.width * p.height :=
  playfield_new_invariant_ascii (strChars "abc\nde\nx yz\n") (by decide) (by decide)

end Berust
